import Mathlib

/-!
Verification of the doubly-linked list implementation in
`src/CMPE13_Lab5.X/LinkedList.c` against its natural-language specification.

The C code is shallowly embedded as follows:
* a C pointer `ListItem *` is an `Option Nat` (`none` is the NULL pointer,
  `some a` a valid or dangling address);
* the mutable store is a `Heap`, an association list from addresses to
  `ListItem` records; `heapGet`/`heapSet`/`heapDel` model pointer reads,
  field writes and `free`;
* every C function returns `Option r`: `none` models undefined behaviour
  (a NULL or dangling dereference, or a traversal that never terminates on a
  malformed heap), `some r` a normal return.  Loops take an explicit fuel;
  all theorems supply enough fuel for the chains they talk about;
* `malloc` is modelled by an `allocResult : Option Nat` argument (`none` =
  allocation failure) and the uninitialised memory returned by `malloc` by
  explicit `junkNext junkPrev` arguments, since the C code never initialises
  the `nextItem`/`previousItem` fields of a fresh node;
* C strings are Lean `String`s; `strlen` is `String.length` and `strcmp` is
  `strcmpO` on the underlying character lists.
-/

namespace CMPE13Lab5

/-- One list node, mirroring the C `ListItem` struct: a payload pointer
(`char *data`, possibly NULL) and the two chain links. -/
structure ListItem where
  data : Option String
  nextItem : Option Nat
  previousItem : Option Nat
deriving DecidableEq, Repr

/-- The mutable store: an association list from addresses to nodes. -/
abbrev Heap := List (Nat × ListItem)

/-- Read the node at address `a` (first matching entry). -/
def heapGet : Heap → Nat → Option ListItem
  | [], _ => none
  | (b, it) :: rest, a => if b = a then some it else heapGet rest a

/-- Remove every entry at address `a` (models `free`). -/
def heapDel : Heap → Nat → Heap
  | [], _ => []
  | (b, it) :: rest, a => if b = a then heapDel rest a else (b, it) :: heapDel rest a

/-- Overwrite the node at address `a` (models a store through a pointer). -/
def heapSet (h : Heap) (a : Nat) (it : ListItem) : Heap := (a, it) :: heapDel h a

/-- Write the `data` field of the node at `a`; `none` if `a` is dangling. -/
def heapWriteData (h : Heap) (a : Nat) (v : Option String) : Option Heap :=
  match heapGet h a with
  | none => none
  | some it => some (heapSet h a ⟨v, it.nextItem, it.previousItem⟩)

/-- Write the `nextItem` field of the node at `a`. -/
def heapWriteNext (h : Heap) (a : Nat) (v : Option Nat) : Option Heap :=
  match heapGet h a with
  | none => none
  | some it => some (heapSet h a ⟨it.data, v, it.previousItem⟩)

/-- Write the `previousItem` field of the node at `a`. -/
def heapWritePrev (h : Heap) (a : Nat) (v : Option Nat) : Option Heap :=
  match heapGet h a with
  | none => none
  | some it => some (heapSet h a ⟨it.data, it.nextItem, v⟩)

/-- The `SUCCESS` / `STANDARD_ERROR` status codes from the support library. -/
inductive CStatus where
  | SUCCESS
  | STANDARD_ERROR
deriving DecidableEq, Repr

/-- C `strcmp` on character lists (byte order via `Char.toNat`):
`lt` when the first string compares lower, `gt` when higher. -/
def strcmpO : List Char → List Char → Ordering
  | [], [] => Ordering.eq
  | [], _ :: _ => Ordering.lt
  | _ :: _, [] => Ordering.gt
  | a :: as, b :: bs =>
    if a.toNat < b.toNat then Ordering.lt
    else if b.toNat < a.toNat then Ordering.gt
    else strcmpO as bs

/-- `LinkedListNew`.  The C code runs `temp->data = data` *before* the
`temp == NULL` check, so an allocation failure dereferences NULL (`none`)
instead of returning the documented NULL sentinel; and it never initialises
`nextItem`/`previousItem`, so the fresh node keeps whatever junk values the
allocator left there. -/
def LinkedListNew (h : Heap) (allocResult : Option Nat) (junkNext junkPrev : Option Nat)
    (data : Option String) : Option (Option Nat × Heap) :=
  match allocResult with
  | none => none
  | some f => some (some f, heapSet h f ⟨data, junkNext, junkPrev⟩)

/-- `LinkedListRemove`.  The C code reads `temp->data` *before* its
`temp == NULL` check, so a NULL argument crashes instead of returning NULL.
Otherwise it splices the neighbours of `item` together (four cases) and
frees the node, returning its payload. -/
def LinkedListRemove (h : Heap) (item : Option Nat) : Option (Option String × Heap) :=
  match item with
  | none => none
  | some a =>
    match heapGet h a with
    | none => none
    | some it =>
      match it.nextItem, it.previousItem with
      | none, none => some (it.data, heapDel h a)
      | none, some p =>
        match heapWriteNext h p none with
        | none => none
        | some h1 => some (it.data, heapDel h1 a)
      | some n, none =>
        match heapWritePrev h n none with
        | none => none
        | some h1 => some (it.data, heapDel h1 a)
      | some n, some p =>
        match heapWritePrev h n (some p) with
        | none => none
        | some h1 =>
          match heapGet h1 a with
          | none => none
          | some it1 =>
            match it1.previousItem with
            | none => none
            | some p1 =>
              match heapWriteNext h1 p1 it1.nextItem with
              | none => none
              | some h2 => some (it.data, heapDel h2 a)

/-- The `while (first->previousItem != NULL)` loop of `LinkedListGetFirst`. -/
def getFirstLoop (h : Heap) : Nat → Nat → Option Nat
  | 0, _ => none
  | fuel + 1, a =>
    match heapGet h a with
    | none => none
    | some it =>
      match it.previousItem with
      | none => some a
      | some p => getFirstLoop h fuel p

/-- `LinkedListGetFirst`.  The C code has no NULL guard: it immediately
evaluates `first->previousItem`, so a NULL argument crashes instead of
returning the documented NULL sentinel. -/
def LinkedListGetFirst (h : Heap) (list : Option Nat) (fuel : Nat) : Option (Option Nat) :=
  match list with
  | none => none
  | some a => (getFirstLoop h fuel a).map some

/-- The counting loop of `LinkedListSize`. -/
def countFrom (h : Heap) : Nat → Option Nat → Option Nat
  | _, none => some 0
  | 0, some _ => none
  | fuel + 1, some a =>
    match heapGet h a with
    | none => none
    | some it => (countFrom h fuel it.nextItem).map (· + 1)

/-- `LinkedListSize`: walk to the head via `LinkedListGetFirst` (which
crashes on NULL), then count forward. -/
def LinkedListSize (h : Heap) (list : Option Nat) (fuel : Nat) : Option Nat :=
  match LinkedListGetFirst h list fuel with
  | none => none
  | some f => countFrom h fuel f

/-- `LinkedListCreateAfter`: allocate a node via `LinkedListNew`, then splice
it in after `item`.  The C code dereferences `item->nextItem` without a NULL
guard, so a NULL `item` crashes (after allocating). -/
def LinkedListCreateAfter (h : Heap) (item : Option Nat) (allocResult : Option Nat)
    (junkNext junkPrev : Option Nat) (data : Option String) : Option (Option Nat × Heap) :=
  match LinkedListNew h allocResult junkNext junkPrev data with
  | none => none
  | some (newPtr, h1) =>
    match newPtr with
    | none => some (none, h1)
    | some f =>
      match item with
      | none => none
      | some ia =>
        match heapGet h1 ia with
        | none => none
        | some iit =>
          match iit.nextItem with
          | none =>
            match heapWriteNext h1 f none with
            | none => none
            | some h2 =>
              match heapWritePrev h2 f (some ia) with
              | none => none
              | some h3 =>
                match heapWriteNext h3 ia (some f) with
                | none => none
                | some h4 => some (some f, h4)
          | some _ =>
            match heapWritePrev h1 f (some ia) with
            | none => none
            | some h2 =>
              match heapGet h2 ia with
              | none => none
              | some iit2 =>
                match heapWriteNext h2 f iit2.nextItem with
                | none => none
                | some h3 =>
                  match heapGet h3 ia with
                  | none => none
                  | some iit3 =>
                    match iit3.nextItem with
                    | none => none
                    | some c =>
                      match heapWritePrev h3 c (some f) with
                      | none => none
                      | some h4 =>
                        match heapWriteNext h4 ia (some f) with
                        | none => none
                        | some h5 => some (some f, h5)

/-- `LinkedListSwapData`: exchanges the two `data` pointers.  The C guard is
`firstItem != NULL || secondItem != NULL`, so the error status is returned
only when *both* arguments are NULL; with exactly one NULL argument the code
proceeds into the swap and dereferences the NULL pointer. -/
def LinkedListSwapData (h : Heap) (firstItem secondItem : Option Nat) : Option (CStatus × Heap) :=
  match firstItem, secondItem with
  | none, none => some (CStatus.STANDARD_ERROR, h)
  | none, some _ => none
  | some fa, s =>
    match heapGet h fa with
    | none => none
    | some fit =>
      match s with
      | none => none
      | some sa =>
        match heapGet h sa with
        | none => none
        | some sit =>
          match heapWriteData h fa sit.data with
          | none => none
          | some h1 =>
            match heapWriteData h1 sa fit.data with
            | none => none
            | some h2 => some (CStatus.SUCCESS, h2)

/-- The swap condition of the inner loop of `LinkedListSort`, for the case
where both payloads are present:
`strlen(select->data) > strlen(cmp->data)`, or equal lengths and
`strcmp(cmp->data, select->data) < 0`. -/
def swapCond (sd cd : String) : Bool :=
  decide (cd.length < sd.length) ||
    (sd.length == cd.length && decide (strcmpO cd.data sd.data = Ordering.lt))

/-- The inner (`cmp`) loop of `LinkedListSort`: scan forward from `co`,
swapping payloads into `selA` whenever the candidate sorts strictly earlier;
`break` as soon as `select->data` is NULL. -/
def sortInner (h : Heap) (selA : Nat) : Nat → Option Nat → Option Heap
  | _, none => some h
  | 0, some _ => none
  | fuel + 1, some cmpA =>
    match heapGet h selA with
    | none => none
    | some sel =>
      match sel.data with
      | none => some h
      | some sd =>
        match heapGet h cmpA with
        | none => none
        | some cit =>
          match cit.data with
          | none =>
            match LinkedListSwapData h (some selA) (some cmpA) with
            | none => none
            | some (_, h1) =>
              match heapGet h1 cmpA with
              | none => none
              | some cit1 => sortInner h1 selA fuel cit1.nextItem
          | some cd =>
            if swapCond sd cd then
              match LinkedListSwapData h (some selA) (some cmpA) with
              | none => none
              | some (_, h1) =>
                match heapGet h1 cmpA with
                | none => none
                | some cit1 => sortInner h1 selA fuel cit1.nextItem
            else
              sortInner h selA fuel cit.nextItem

/-- The outer (`select`) loop of `LinkedListSort`:
`for (select = list; select->nextItem != NULL; select = select->nextItem)`. -/
def sortOuter (h : Heap) (innerFuel : Nat) : Nat → Nat → Option Heap
  | 0, _ => none
  | outerFuel + 1, selA =>
    match heapGet h selA with
    | none => none
    | some sel =>
      match sel.nextItem with
      | none => some h
      | some nxt =>
        match sortInner h selA innerFuel (some nxt) with
        | none => none
        | some h1 =>
          match heapGet h1 selA with
          | none => none
          | some sel1 =>
            match sel1.nextItem with
            | none => none
            | some _ =>
              sortOuter h1 innerFuel outerFuel nxt

/-- `LinkedListSort`: NULL argument returns `STANDARD_ERROR`; otherwise run
the eager-swap selection sort from `list` and return `SUCCESS`. -/
def LinkedListSort (h : Heap) (list : Option Nat) (fuel : Nat) : Option (CStatus × Heap) :=
  match list with
  | none => some (CStatus.STANDARD_ERROR, h)
  | some a =>
    match sortOuter h fuel fuel a with
    | none => none
    | some h1 => some (CStatus.SUCCESS, h1)

/-- How `LinkedListPrint` renders one payload: `-(null)-` for a NULL payload,
`-s-` otherwise. -/
def renderItem (d : Option String) : String :=
  match d with
  | none => "-(null)-"
  | some s => "-" ++ s ++ "-"

/-- The printing loop of `LinkedListPrint`, accumulating the rendered
segments from the given node to the tail. -/
def printLoop (h : Heap) : Nat → Option Nat → Option String
  | _, none => some ""
  | 0, some _ => none
  | fuel + 1, some a =>
    match heapGet h a with
    | none => none
    | some it => (printLoop h fuel it.nextItem).map (fun tail => renderItem it.data ++ tail)

/-- `LinkedListPrint`: NULL returns `STANDARD_ERROR` (printing nothing);
otherwise walk to the head and emit the `\x7b`…`\x7d` rendering followed by a
newline, returning `SUCCESS` together with the text written to stdout. -/
def LinkedListPrint (h : Heap) (list : Option Nat) (fuel : Nat) : Option (CStatus × String) :=
  match list with
  | none => some (CStatus.STANDARD_ERROR, "")
  | some a =>
    match getFirstLoop h fuel a with
    | none => none
    | some f =>
      match printLoop h fuel (some f) with
      | none => none
      | some body => some (CStatus.SUCCESS, "\x7b" ++ body ++ "\x7d\n")

/-- The payload sequence of a list of addresses (used only under chain
hypotheses, where every address is present in the heap). -/
def datasOf (h : Heap) (as : List Nat) : List (Option String) :=
  as.map fun a =>
    match heapGet h a with
    | none => none
    | some it => it.data

/-- `isChainB h o as` holds when `as` is exactly the sequence of addresses
reached from the pointer `o` by following `nextItem` links until NULL. -/
def isChainB (h : Heap) : Option Nat → List Nat → Bool
  | none, [] => true
  | none, _ :: _ => false
  | some _, [] => false
  | some a, b :: bs =>
    a == b &&
      (match heapGet h a with
       | none => false
       | some it => isChainB h it.nextItem bs)

/-- `isBackChain h o as` holds when `as` is exactly the sequence of addresses
reached from `o` by following `previousItem` links until NULL (so the last
element of `as` is the head of the chain). -/
def isBackChain (h : Heap) : Option Nat → List Nat → Bool
  | none, [] => true
  | none, _ :: _ => false
  | some _, [] => false
  | some a, b :: bs =>
    a == b &&
      (match heapGet h a with
       | none => false
       | some it => isBackChain h it.previousItem bs)

/-- The link structure of an optional node: presence plus both links,
ignoring the payload. -/
def shape (o : Option ListItem) : Option (Option Nat × Option Nat) :=
  o.map fun it => (it.nextItem, it.previousItem)

/-- Two heaps with the same addresses and the same links everywhere; only
payloads may differ. -/
def SameShape (h h1 : Heap) : Prop :=
  ∀ b, shape (heapGet h b) = shape (heapGet h1 b)

/-- The comparison effectively implemented by the code's sort branches, as a
total order: a NULL payload sorts strictly before every present payload
(including the empty string), then ascending length, then `strcmp` order. -/
def codeLe : Option String → Option String → Bool
  | none, _ => true
  | some _, none => false
  | some a, some b =>
    decide (a.length < b.length) ||
      (a.length == b.length && !decide (strcmpO a.data b.data = Ordering.gt))

/-- The key a payload sorts by according to the specification's words: the
length (a NULL payload counting as length 0). -/
def keyLen : Option String → Nat
  | none => 0
  | some s => s.length

/-- The character content a payload compares by according to the
specification's words: a NULL payload is treated as a zero-length string. -/
def keyStr : Option String → List Char
  | none => []
  | some s => s.data

/-- The specification's order: ascending by length with a NULL payload
counting as length 0, then lexicographically among equal lengths with a NULL
payload treated as the empty string. -/
def keyLe (x y : Option String) : Bool :=
  decide (keyLen x < keyLen y) ||
    (keyLen x == keyLen y && !decide (strcmpO (keyStr x) (keyStr y) = Ordering.gt))

/-- The list-level model of one pass of the inner loop of `LinkedListSort`:
given the payload currently at `select` and the payloads after it, return
the payload left at `select` and the payloads left after it. -/
def innerPass (s : Option String) : List (Option String) → Option String × List (Option String)
  | [] => (s, [])
  | c :: rest =>
    match s with
    | none => (none, c :: rest)
    | some sd =>
      match c with
      | none =>
        let p := innerPass none rest
        (p.1, some sd :: p.2)
      | some cd =>
        if swapCond sd cd then
          let p := innerPass (some cd) rest
          (p.1, some sd :: p.2)
        else
          let p := innerPass (some sd) rest
          (p.1, c :: p.2)

/-- The list-level model of the whole eager-swap selection sort, with fuel
for the outer loop (the fuel is never exhausted when it is at least the
length of the list). -/
def exchangeSortF : Nat → List (Option String) → List (Option String)
  | _, [] => []
  | 0, l => l
  | fuel + 1, s :: cs =>
    match cs with
    | [] => [s]
    | _ :: _ =>
      let p := innerPass s cs
      p.1 :: exchangeSortF fuel p.2

/-- The five-node example chain of the specification, head to tail:
`dog, cat, duck, goat, NULL`. -/
def exampleHeap : Heap :=
  [(1, ⟨some "dog", some 2, none⟩),
   (2, ⟨some "cat", some 3, some 1⟩),
   (3, ⟨some "duck", some 4, some 2⟩),
   (4, ⟨some "goat", some 5, some 3⟩),
   (5, ⟨none, none, some 4⟩)]

/-- The sorted example chain, head to tail: `NULL, cat, dog, duck, goat`. -/
def sortedExampleHeap : Heap :=
  [(1, ⟨none, some 2, none⟩),
   (2, ⟨some "cat", some 3, some 1⟩),
   (3, ⟨some "dog", some 4, some 2⟩),
   (4, ⟨some "duck", some 5, some 3⟩),
   (5, ⟨some "goat", none, some 4⟩)]

/-- The two-node chain `["", NULL]` used to refute literal idempotence of
`LinkedListSort`: it is sorted for the specification's order (both payloads
have length 0 and empty content) but the code still swaps them. -/
def c8Heap : Heap :=
  [(1, ⟨some "", some 2, none⟩),
   (2, ⟨none, none, some 1⟩)]

/-! ### Heap lemmas -/

theorem heapGet_del_self : ∀ (h : Heap) (a : Nat), heapGet (heapDel h a) a = none := by
  intro h a
  induction h with
  | nil => rfl
  | cons e rest ih =>
    obtain ⟨b, it⟩ := e
    by_cases hba : b = a
    · simpa [heapDel, hba] using ih
    · simpa [heapDel, heapGet, hba] using ih

theorem heapGet_del_ne : ∀ (h : Heap) (a b : Nat), b ≠ a →
    heapGet (heapDel h a) b = heapGet h b := by
  intro h a b hba
  induction h with
  | nil => rfl
  | cons e rest ih =>
    obtain ⟨c, it⟩ := e
    simp only [heapDel, heapGet]
    by_cases hca : c = a
    · rw [if_pos hca, ih]
      have hcb : ¬ c = b := by rw [hca]; exact fun hh => hba hh.symm
      rw [if_neg hcb]
    · rw [if_neg hca]
      by_cases hcb : c = b
      · simp only [heapGet, if_pos hcb]
      · simp only [heapGet, if_neg hcb, ih]

theorem heapGet_set_self (h : Heap) (a : Nat) (it : ListItem) :
    heapGet (heapSet h a it) a = some it := by
  simp [heapSet, heapGet]

theorem heapGet_set_ne (h : Heap) (a : Nat) (it : ListItem) (b : Nat) (hba : b ≠ a) :
    heapGet (heapSet h a it) b = heapGet h b := by
  have : ¬ a = b := fun hh => hba hh.symm
  simp [heapSet, heapGet, this, heapGet_del_ne h a b hba]

theorem heapWriteData_eq (h : Heap) (a : Nat) (it : ListItem) (v : Option String)
    (ha : heapGet h a = some it) :
    heapWriteData h a v = some (heapSet h a ⟨v, it.nextItem, it.previousItem⟩) := by
  simp [heapWriteData, ha]

theorem heapWriteNext_eq (h : Heap) (a : Nat) (it : ListItem) (v : Option Nat)
    (ha : heapGet h a = some it) :
    heapWriteNext h a v = some (heapSet h a ⟨it.data, v, it.previousItem⟩) := by
  simp [heapWriteNext, ha]

theorem heapWritePrev_eq (h : Heap) (a : Nat) (it : ListItem) (v : Option Nat)
    (ha : heapGet h a = some it) :
    heapWritePrev h a v = some (heapSet h a ⟨it.data, it.nextItem, v⟩) := by
  simp [heapWritePrev, ha]

/-! ### `strcmp` order lemmas -/

theorem strcmpO_self : ∀ a, strcmpO a a = Ordering.eq := by
  intro a
  induction a with
  | nil => rfl
  | cons x xs ih => simp [strcmpO, ih]

theorem strcmpO_gt_iff : ∀ a b, strcmpO a b = Ordering.gt ↔ strcmpO b a = Ordering.lt
  | [], [] => by simp [strcmpO]
  | [], _ :: _ => by simp [strcmpO]
  | _ :: _, [] => by simp [strcmpO]
  | x :: xs, y :: ys => by
    simp only [strcmpO]
    rcases Nat.lt_trichotomy x.toNat y.toNat with hlt | heq | hgt
    · simp [hlt, Nat.lt_asymm hlt]
    · simp [heq, strcmpO_gt_iff xs ys]
    · simp [hgt, Nat.lt_asymm hgt]

theorem strcmpO_ngt_trans : ∀ a b c, strcmpO a b ≠ Ordering.gt →
    strcmpO b c ≠ Ordering.gt → strcmpO a c ≠ Ordering.gt
  | [], _, [] => fun _ _ => by simp [strcmpO]
  | [], _, _ :: _ => fun _ _ => by simp [strcmpO]
  | x :: xs, [], c => fun h1 _ => ((h1 : strcmpO (x :: xs) [] ≠ Ordering.gt) rfl).elim
  | x :: xs, y :: ys, [] => fun _ h2 =>
      ((h2 : strcmpO (y :: ys) [] ≠ Ordering.gt) rfl).elim
  | x :: xs, y :: ys, z :: zs => fun h1 h2 => by
    simp only [strcmpO] at h1 h2 ⊢
    by_cases hxy : x.toNat < y.toNat
    · by_cases hyz : y.toNat < z.toNat
      · have hxz : x.toNat < z.toNat := Nat.lt_trans hxy hyz
        simp [hxz]
      · by_cases hzy : z.toNat < y.toNat
        · simp [hyz, hzy] at h2
        · have hxz : x.toNat < z.toNat := by omega
          simp [hxz]
    · by_cases hyx : y.toNat < x.toNat
      · simp [hxy, hyx] at h1
      · have h1' : strcmpO xs ys ≠ Ordering.gt := by simpa [hxy, hyx] using h1
        by_cases hyz : y.toNat < z.toNat
        · have hxz : x.toNat < z.toNat := by omega
          simp [hxz]
        · by_cases hzy : z.toNat < y.toNat
          · simp [hyz, hzy] at h2
          · have h2' : strcmpO ys zs ≠ Ordering.gt := by simpa [hyz, hzy] using h2
            have hxz : ¬ x.toNat < z.toNat := by omega
            have hzx : ¬ z.toNat < x.toNat := by omega
            simpa [hxz, hzx] using strcmpO_ngt_trans xs ys zs h1' h2'

/-! ### Order lemmas for `codeLe`, `keyLe` and the swap condition -/

theorem codeLe_refl (x : Option String) : codeLe x x = true := by
  cases x with
  | none => rfl
  | some s => simp [codeLe, strcmpO_self]

theorem codeLe_total (x y : Option String) (h : codeLe x y = false) : codeLe y x = true := by
  cases x with
  | none => simp [codeLe] at h
  | some a =>
    cases y with
    | none => rfl
    | some b =>
      by_cases hlt : a.length < b.length
      · simp [codeLe, hlt] at h
      · by_cases heq : a.length = b.length
        · have hgt : strcmpO a.data b.data = Ordering.gt := by
            by_contra hng
            simp [codeLe, hlt, heq, hng] at h
          have hlt2 : strcmpO b.data a.data = Ordering.lt :=
            (strcmpO_gt_iff a.data b.data).mp hgt
          simp [codeLe, heq.symm, hlt2]
        · have hba : b.length < a.length := by omega
          simp [codeLe, hba]

theorem codeLe_trans (x y z : Option String) (h1 : codeLe x y = true)
    (h2 : codeLe y z = true) : codeLe x z = true := by
  cases x with
  | none => rfl
  | some a =>
    cases y with
    | none => simp [codeLe] at h1
    | some b =>
      cases z with
      | none => simp [codeLe] at h2
      | some c =>
        simp only [codeLe, Bool.or_eq_true, decide_eq_true_eq, Bool.and_eq_true,
          beq_iff_eq, Bool.not_eq_true', decide_eq_false_iff_not] at h1 h2 ⊢
        rcases h1 with hlt1 | ⟨heq1, hngt1⟩
        · rcases h2 with hlt2 | ⟨heq2, _⟩
          · exact Or.inl (by omega)
          · exact Or.inl (by omega)
        · rcases h2 with hlt2 | ⟨heq2, hngt2⟩
          · exact Or.inl (by omega)
          · exact Or.inr ⟨by omega, strcmpO_ngt_trans a.data b.data c.data hngt1 hngt2⟩

theorem codeLe_imp_keyLe (x y : Option String) (h : codeLe x y = true) : keyLe x y = true := by
  cases x with
  | none =>
    cases y with
    | none => simp [keyLe, keyLen, keyStr, strcmpO]
    | some s =>
      by_cases hs : s.length = 0
      · have hdata : s.data = [] := List.length_eq_zero.mp hs
        simp [keyLe, keyLen, keyStr, strcmpO, hs, hdata]
      · simp [keyLe, keyLen, keyStr, Nat.pos_of_ne_zero hs]
  | some a =>
    cases y with
    | none => simp [codeLe] at h
    | some b => exact h

theorem swapCond_eq (sd cd : String) : swapCond sd cd = !(codeLe (some sd) (some cd)) := by
  simp only [swapCond, codeLe]
  rcases Nat.lt_trichotomy sd.length cd.length with hlt | heq | hgt
  · simp [hlt, Nat.lt_asymm hlt, Nat.ne_of_lt hlt]
  · have h1 := strcmpO_gt_iff sd.data cd.data
    have h2 := strcmpO_gt_iff cd.data sd.data
    cases hx : strcmpO cd.data sd.data <;> cases hy : strcmpO sd.data cd.data <;>
      simp_all [heq]
  · simp [hgt, Nat.lt_asymm hgt, (Nat.ne_of_lt hgt).symm]

/-! ### List-level lemmas about the inner pass and the eager-swap sort -/

theorem codeLe_none_right (x : Option String) (h : codeLe x none = true) : x = none := by
  cases x with
  | none => rfl
  | some s => simp [codeLe] at h

theorem innerPass_nil (s : Option String) : innerPass s [] = (s, []) := rfl

theorem innerPass_cons_break (c : Option String) (rest : List (Option String)) :
    innerPass none (c :: rest) = (none, c :: rest) := rfl

theorem innerPass_cons_cnone (sd : String) (rest : List (Option String)) :
    innerPass (some sd) (none :: rest)
      = ((innerPass none rest).1, some sd :: (innerPass none rest).2) := rfl

theorem innerPass_cons_swap (sd cd : String) (rest : List (Option String))
    (hsw : swapCond sd cd = true) :
    innerPass (some sd) (some cd :: rest)
      = ((innerPass (some cd) rest).1, some sd :: (innerPass (some cd) rest).2) := by
  simp [innerPass, hsw]

theorem innerPass_cons_noswap (sd cd : String) (rest : List (Option String))
    (hsw : swapCond sd cd = false) :
    innerPass (some sd) (some cd :: rest)
      = ((innerPass (some sd) rest).1, some cd :: (innerPass (some sd) rest).2) := by
  simp [innerPass, hsw]

theorem innerPass_length : ∀ (cs : List (Option String)) (s : Option String),
    (innerPass s cs).2.length = cs.length := by
  intro cs
  induction cs with
  | nil => intro s; rfl
  | cons c rest ih =>
    intro s
    cases s with
    | none => rfl
    | some sd =>
      cases c with
      | none => simp [innerPass_cons_cnone, ih]
      | some cd =>
        by_cases hsw : swapCond sd cd
        · simp [innerPass_cons_swap sd cd rest hsw, ih]
        · simp [innerPass_cons_noswap sd cd rest (by simpa using hsw), ih]

theorem innerPass_perm : ∀ (cs : List (Option String)) (s : Option String),
    ((innerPass s cs).1 :: (innerPass s cs).2).Perm (s :: cs) := by
  intro cs
  induction cs with
  | nil => intro s; exact List.Perm.refl _
  | cons c rest ih =>
    intro s
    cases s with
    | none => exact List.Perm.refl _
    | some sd =>
      cases c with
      | none =>
        rw [innerPass_cons_cnone]
        exact (List.Perm.swap (some sd) (innerPass none rest).1 (innerPass none rest).2).trans
          ((ih none).cons (some sd))
      | some cd =>
        by_cases hsw : swapCond sd cd
        · rw [innerPass_cons_swap sd cd rest hsw]
          exact (List.Perm.swap (some sd) (innerPass (some cd) rest).1
            (innerPass (some cd) rest).2).trans ((ih (some cd)).cons (some sd))
        · rw [innerPass_cons_noswap sd cd rest (by simpa using hsw)]
          refine ((List.Perm.swap (some cd) (innerPass (some sd) rest).1
            (innerPass (some sd) rest).2).trans ((ih (some sd)).cons (some cd))).trans ?_
          exact List.Perm.swap (some sd) (some cd) rest

theorem innerPass_bound : ∀ (cs : List (Option String)) (s : Option String),
    codeLe (innerPass s cs).1 s = true ∧
      ∀ x ∈ (innerPass s cs).2, codeLe (innerPass s cs).1 x = true := by
  intro cs
  induction cs with
  | nil =>
    intro s
    refine ⟨codeLe_refl s, ?_⟩
    intro x hx
    simp [innerPass_nil] at hx
  | cons c rest ih =>
    intro s
    cases s with
    | none =>
      refine ⟨rfl, ?_⟩
      intro x hx
      rfl
    | some sd =>
      cases c with
      | none =>
        obtain ⟨hb1, hb2⟩ := ih none
        have hnone : (innerPass none rest).1 = none := codeLe_none_right _ hb1
        rw [innerPass_cons_cnone]
        refine ⟨by rw [hnone]; rfl, ?_⟩
        intro x hx
        rcases List.mem_cons.mp hx with hx1 | hx2
        · rw [hnone]; rfl
        · exact hb2 x hx2
      | some cd =>
        by_cases hsw : swapCond sd cd
        · obtain ⟨hb1, hb2⟩ := ih (some cd)
          have hcs : codeLe (some cd) (some sd) = true := by
            have h1 : codeLe (some sd) (some cd) = false := by
              have := swapCond_eq sd cd
              rw [hsw] at this
              cases hc : codeLe (some sd) (some cd)
              · rfl
              · rw [hc] at this; simp at this
            exact codeLe_total _ _ h1
          have hle : codeLe (innerPass (some cd) rest).1 (some sd) = true :=
            codeLe_trans _ _ _ hb1 hcs
          rw [innerPass_cons_swap sd cd rest hsw]
          refine ⟨hle, ?_⟩
          intro x hx
          rcases List.mem_cons.mp hx with hx1 | hx2
          · rw [hx1]; exact hle
          · exact hb2 x hx2
        · obtain ⟨hb1, hb2⟩ := ih (some sd)
          have hsc : codeLe (some sd) (some cd) = true := by
            have := swapCond_eq sd cd
            rw [Bool.eq_false_iff.mpr hsw] at this
            cases hc : codeLe (some sd) (some cd)
            · rw [hc] at this; simp at this
            · rfl
          rw [innerPass_cons_noswap sd cd rest (by simpa using hsw)]
          refine ⟨hb1, ?_⟩
          intro x hx
          rcases List.mem_cons.mp hx with hx1 | hx2
          · rw [hx1]; exact codeLe_trans _ _ _ hb1 hsc
          · exact hb2 x hx2

theorem innerPass_sorted_id : ∀ (cs : List (Option String)) (s : Option String),
    (∀ x ∈ cs, codeLe s x = true) → innerPass s cs = (s, cs) := by
  intro cs
  induction cs with
  | nil => intro s _; rfl
  | cons c rest ih =>
    intro s hs
    cases s with
    | none => rfl
    | some sd =>
      have hc : codeLe (some sd) c = true := hs c (List.mem_cons_self c rest)
      cases c with
      | none => simp [codeLe] at hc
      | some cd =>
        have hsw : swapCond sd cd = false := by
          rw [swapCond_eq, hc]
          rfl
        rw [innerPass_cons_noswap sd cd rest hsw,
          ih (some sd) (fun x hx => hs x (List.mem_cons_of_mem _ hx))]

theorem exchangeSortF_nil (f : Nat) : exchangeSortF f [] = [] := by cases f <;> rfl

theorem exchangeSortF_zero (l : List (Option String)) : exchangeSortF 0 l = l := by
  cases l <;> rfl

theorem exchangeSortF_single (f : Nat) (s : Option String) : exchangeSortF f [s] = [s] := by
  cases f <;> rfl

theorem exchangeSortF_cons (f : Nat) (s c : Option String) (rest : List (Option String)) :
    exchangeSortF (f + 1) (s :: c :: rest)
      = (innerPass s (c :: rest)).1 :: exchangeSortF f (innerPass s (c :: rest)).2 := rfl

theorem exchangeSortF_perm : ∀ (f : Nat) (l : List (Option String)),
    (exchangeSortF f l).Perm l := by
  intro f
  induction f with
  | zero => intro l; rw [exchangeSortF_zero]
  | succ f ih =>
    intro l
    match l with
    | [] => rw [exchangeSortF_nil]
    | [s] => rw [exchangeSortF_single]
    | s :: c :: rest =>
      rw [exchangeSortF_cons]
      exact ((ih _).cons _).trans (innerPass_perm (c :: rest) s)

theorem exchangeSortF_sorted : ∀ (f : Nat) (l : List (Option String)), l.length ≤ f →
    (exchangeSortF f l).Pairwise (fun x y => codeLe x y = true) := by
  intro f
  induction f with
  | zero =>
    intro l hl
    have : l = [] := List.length_eq_zero.mp (Nat.le_zero.mp hl)
    rw [this, exchangeSortF_nil]
    exact List.Pairwise.nil
  | succ f ih =>
    intro l hl
    match l with
    | [] => rw [exchangeSortF_nil]; exact List.Pairwise.nil
    | [s] => rw [exchangeSortF_single]; exact List.pairwise_singleton _ _
    | s :: c :: rest =>
      rw [exchangeSortF_cons]
      have hlen : (innerPass s (c :: rest)).2.length ≤ f := by
        rw [innerPass_length]
        simpa using Nat.le_of_succ_le_succ hl
      refine List.Pairwise.cons ?_ (ih _ hlen)
      intro y hy
      have hy2 : y ∈ (innerPass s (c :: rest)).2 :=
        (exchangeSortF_perm f _).mem_iff.mp hy
      exact (innerPass_bound (c :: rest) s).2 y hy2

theorem exchangeSortF_sorted_id : ∀ (f : Nat) (l : List (Option String)),
    l.Pairwise (fun x y => codeLe x y = true) → exchangeSortF f l = l := by
  intro f
  induction f with
  | zero => intro l _; rw [exchangeSortF_zero]
  | succ f ih =>
    intro l hl
    match l with
    | [] => rw [exchangeSortF_nil]
    | [s] => rw [exchangeSortF_single]
    | s :: c :: rest =>
      rw [exchangeSortF_cons]
      obtain ⟨hhead, htail⟩ := List.pairwise_cons.mp hl
      rw [innerPass_sorted_id (c :: rest) s hhead]
      rw [ih (c :: rest) htail]

/-! ### Shape and chain lemmas -/

theorem sameShape_refl (h : Heap) : SameShape h h := fun _ => rfl

theorem sameShape_trans {h1 h2 h3 : Heap} (a : SameShape h1 h2) (b : SameShape h2 h3) :
    SameShape h1 h3 := fun x => (a x).trans (b x)

theorem sameShape_get_some {h h1 : Heap} (hs : SameShape h h1) {b : Nat} {it : ListItem}
    (hb : heapGet h b = some it) :
    ∃ d, heapGet h1 b = some ⟨d, it.nextItem, it.previousItem⟩ := by
  have := hs b
  rw [hb] at this
  cases hb1 : heapGet h1 b with
  | none => rw [hb1] at this; simp [shape] at this
  | some it1 =>
    obtain ⟨it1d, it1n, it1p⟩ := it1
    rw [hb1] at this
    simp only [shape, Option.map_some', Option.some.injEq, Prod.mk.injEq] at this
    obtain ⟨hn, hp⟩ := this
    subst hn
    subst hp
    exact ⟨it1d, rfl⟩

theorem sameShape_get_none {h h1 : Heap} (hs : SameShape h h1) {b : Nat}
    (hb : heapGet h b = none) : heapGet h1 b = none := by
  have := hs b
  rw [hb] at this
  cases hb1 : heapGet h1 b with
  | none => rfl
  | some it1 => rw [hb1] at this; simp [shape] at this

theorem sameShape_set (h : Heap) (a : Nat) (it : ListItem) (d : Option String)
    (ha : heapGet h a = some it) :
    SameShape h (heapSet h a ⟨d, it.nextItem, it.previousItem⟩) := by
  intro b
  by_cases hba : b = a
  · subst hba
    rw [ha, heapGet_set_self]
    rfl
  · rw [heapGet_set_ne _ _ _ _ hba]

theorem isChainB_congr (h h1 : Heap) (hs : SameShape h h1) :
    ∀ (as : List Nat) (o : Option Nat), isChainB h o as = isChainB h1 o as := by
  intro as
  induction as with
  | nil => intro o; cases o <;> rfl
  | cons b bs ih =>
    intro o
    cases o with
    | none => rfl
    | some a =>
      have hsh := hs a
      cases hga : heapGet h a with
      | none =>
        have hga1 := sameShape_get_none hs hga
        simp [isChainB, hga, hga1]
      | some it =>
        obtain ⟨d, hga1⟩ := sameShape_get_some hs hga
        simp [isChainB, hga, hga1, ih]

theorem isChainB_cons_elim (h : Heap) (a c : Nat) (cs : List Nat)
    (hch : isChainB h (some a) (c :: cs) = true) :
    a = c ∧ ∃ cit, heapGet h a = some cit ∧ isChainB h cit.nextItem cs = true := by
  simp only [isChainB, Bool.and_eq_true, beq_iff_eq] at hch
  obtain ⟨hac, hm⟩ := hch
  refine ⟨hac, ?_⟩
  cases hg : heapGet h a with
  | none => rw [hg] at hm; simp at hm
  | some cit => rw [hg] at hm; exact ⟨cit, rfl, hm⟩

theorem isChainB_nil_elim (h : Heap) (o : Option Nat) (hch : isChainB h o [] = true) :
    o = none := by
  cases o with
  | none => rfl
  | some a => simp [isChainB] at hch

theorem datasOf_cons (h : Heap) (a : Nat) (as : List Nat) (it : ListItem)
    (ha : heapGet h a = some it) :
    datasOf h (a :: as) = it.data :: datasOf h as := by
  simp [datasOf, ha]

theorem datasOf_congr (h h1 : Heap) (as : List Nat)
    (hag : ∀ a ∈ as, heapGet h1 a = heapGet h a) : datasOf h1 as = datasOf h as := by
  unfold datasOf
  exact List.map_congr_left fun a ha => by rw [hag a ha]

/-! ### The swap operation on valid distinct nodes -/

theorem swapData_ok (h : Heap) (x y : Nat) (ix iy : ListItem)
    (hx : heapGet h x = some ix) (hy : heapGet h y = some iy) (hxy : x ≠ y) :
    LinkedListSwapData h (some x) (some y)
      = some (CStatus.SUCCESS,
          heapSet (heapSet h x ⟨iy.data, ix.nextItem, ix.previousItem⟩) y
            ⟨ix.data, iy.nextItem, iy.previousItem⟩) := by
  have e1 : heapWriteData h x iy.data
      = some (heapSet h x ⟨iy.data, ix.nextItem, ix.previousItem⟩) :=
    heapWriteData_eq h x ix iy.data hx
  have hy1 : heapGet (heapSet h x ⟨iy.data, ix.nextItem, ix.previousItem⟩) y = some iy := by
    rw [heapGet_set_ne _ _ _ _ (fun hh => hxy hh.symm)]
    exact hy
  have e2 : heapWriteData (heapSet h x ⟨iy.data, ix.nextItem, ix.previousItem⟩) y ix.data
      = some (heapSet (heapSet h x ⟨iy.data, ix.nextItem, ix.previousItem⟩) y
          ⟨ix.data, iy.nextItem, iy.previousItem⟩) :=
    heapWriteData_eq _ y iy ix.data hy1
  simp only [LinkedListSwapData, hx, hy, e1, e2]

/-! ### Simulation of the sort loops by the list-level model -/

theorem sortInner_none (h : Heap) (selA fuel : Nat) :
    sortInner h selA fuel none = some h := by
  cases fuel <;> rfl

theorem sortInner_sim : ∀ (cs : List Nat) (h : Heap) (selA : Nat) (seld : Option String)
    (seln selp : Option Nat) (co : Option Nat) (fuel : Nat),
    heapGet h selA = some ⟨seld, seln, selp⟩ → isChainB h co cs = true →
    selA ∉ cs → cs.Nodup → cs.length ≤ fuel →
    ∃ h1, sortInner h selA fuel co = some h1
      ∧ heapGet h1 selA = some ⟨(innerPass seld (datasOf h cs)).1, seln, selp⟩
      ∧ datasOf h1 cs = (innerPass seld (datasOf h cs)).2
      ∧ (∀ b, b ≠ selA → b ∉ cs → heapGet h1 b = heapGet h b)
      ∧ SameShape h h1
  | [], h, selA, seld, seln, selp, co, fuel => by
    intro hsel hch _ _ _
    have hco := isChainB_nil_elim h co hch
    subst hco
    exact ⟨h, sortInner_none h selA fuel, hsel, rfl, fun b _ _ => rfl, sameShape_refl h⟩
  | c :: cs', h, selA, seld, seln, selp, co, fuel => by
    intro hsel hch hnotin hnd hfuel
    cases co with
    | none => simp [isChainB] at hch
    | some a =>
      obtain ⟨rfl, cit, hget, hch'⟩ := isChainB_cons_elim h a c cs' hch
      obtain ⟨citd, citn, citp⟩ := cit
      simp only at hch'
      cases fuel with
      | zero => exact absurd hfuel (by simp)
      | succ f =>
        have hfn : cs'.length ≤ f := by
          simpa using Nat.le_of_succ_le_succ (by simpa using hfuel)
        have hnot1 : selA ≠ a := fun hh => hnotin (hh ▸ List.mem_cons_self a cs')
        have hnot2 : selA ∉ cs' := fun hh => hnotin (List.mem_cons_of_mem _ hh)
        have hcn : a ∉ cs' := (List.nodup_cons.mp hnd).1
        have hnd' : cs'.Nodup := (List.nodup_cons.mp hnd).2
        have hdatas : datasOf h (a :: cs') = citd :: datasOf h cs' :=
          datasOf_cons h a cs' ⟨citd, citn, citp⟩ hget
        cases seld with
        | none =>
          refine ⟨h, ?_, ?_, ?_, fun b _ _ => rfl, sameShape_refl h⟩
          · simp only [sortInner, hsel]
          · rw [hdatas, innerPass_cons_break]
            exact hsel
          · rw [hdatas, innerPass_cons_break]
        | some sd =>
          cases citd with
          | none =>
            have hsw := swapData_ok h selA a ⟨some sd, seln, selp⟩ ⟨none, citn, citp⟩
              hsel hget hnot1
            have hAsel : heapGet
                (heapSet (heapSet h selA ⟨none, seln, selp⟩) a ⟨some sd, citn, citp⟩) selA
                = some ⟨none, seln, selp⟩ := by
              rw [heapGet_set_ne _ _ _ _ hnot1, heapGet_set_self]
            have hAc : heapGet
                (heapSet (heapSet h selA ⟨none, seln, selp⟩) a ⟨some sd, citn, citp⟩) a
                = some ⟨some sd, citn, citp⟩ := heapGet_set_self _ _ _
            have hget1 : heapGet (heapSet h selA ⟨none, seln, selp⟩) a
                = some ⟨none, citn, citp⟩ := by
              rw [heapGet_set_ne _ _ _ _ (fun hh => hnot1 hh.symm)]
              exact hget
            have hAsh : SameShape h
                (heapSet (heapSet h selA ⟨none, seln, selp⟩) a ⟨some sd, citn, citp⟩) :=
              sameShape_trans (sameShape_set h selA ⟨some sd, seln, selp⟩ none hsel)
                (sameShape_set _ a ⟨none, citn, citp⟩ (some sd) hget1)
            have hAfr : ∀ b, b ≠ selA → b ≠ a →
                heapGet (heapSet (heapSet h selA ⟨none, seln, selp⟩) a
                  ⟨some sd, citn, citp⟩) b = heapGet h b := by
              intro b hb1 hb2
              rw [heapGet_set_ne _ _ _ _ hb2, heapGet_set_ne _ _ _ _ hb1]
            have hAch : isChainB
                (heapSet (heapSet h selA ⟨none, seln, selp⟩) a ⟨some sd, citn, citp⟩)
                citn cs' = true := by
              rw [← isChainB_congr h _ hAsh]
              exact hch'
            have hAdatas : datasOf
                (heapSet (heapSet h selA ⟨none, seln, selp⟩) a ⟨some sd, citn, citp⟩) cs'
                = datasOf h cs' :=
              datasOf_congr _ _ cs' fun b hb =>
                hAfr b (fun hh => hnot2 (hh ▸ hb)) (fun hh => hcn (hh ▸ hb))
            obtain ⟨h1, hrun, hsel1, hdat1, hfr1, hsh1⟩ :=
              sortInner_sim cs' _ selA none seln selp citn f hAsel hAch hnot2 hnd' hfn
            refine ⟨h1, ?_, ?_, ?_, ?_, sameShape_trans hAsh hsh1⟩
            · simp only [sortInner, hsel, hget, hsw, hAc]
              exact hrun
            · rw [hdatas, innerPass_cons_cnone]
              rw [hAdatas] at hsel1
              exact hsel1
            · have hc1 : heapGet h1 a = some ⟨some sd, citn, citp⟩ := by
                rw [hfr1 a (fun hh => hnot1 hh.symm) hcn]
                exact hAc
              rw [hdatas, innerPass_cons_cnone, datasOf_cons h1 a cs' _ hc1]
              rw [hAdatas] at hdat1
              rw [hdat1]
            · intro b hb1 hb2
              rw [hfr1 b hb1 (fun hh => hb2 (List.mem_cons_of_mem _ hh)),
                hAfr b hb1 (fun hh => hb2 (hh ▸ List.mem_cons_self a cs'))]
          | some cd =>
            by_cases hsw : swapCond sd cd = true
            · have hswap := swapData_ok h selA a ⟨some sd, seln, selp⟩ ⟨some cd, citn, citp⟩
                hsel hget hnot1
              have hAsel : heapGet
                  (heapSet (heapSet h selA ⟨some cd, seln, selp⟩) a ⟨some sd, citn, citp⟩) selA
                  = some ⟨some cd, seln, selp⟩ := by
                rw [heapGet_set_ne _ _ _ _ hnot1, heapGet_set_self]
              have hAc : heapGet
                  (heapSet (heapSet h selA ⟨some cd, seln, selp⟩) a ⟨some sd, citn, citp⟩) a
                  = some ⟨some sd, citn, citp⟩ := heapGet_set_self _ _ _
              have hget1 : heapGet (heapSet h selA ⟨some cd, seln, selp⟩) a
                  = some ⟨some cd, citn, citp⟩ := by
                rw [heapGet_set_ne _ _ _ _ (fun hh => hnot1 hh.symm)]
                exact hget
              have hAsh : SameShape h
                  (heapSet (heapSet h selA ⟨some cd, seln, selp⟩) a ⟨some sd, citn, citp⟩) :=
                sameShape_trans (sameShape_set h selA ⟨some sd, seln, selp⟩ (some cd) hsel)
                  (sameShape_set _ a ⟨some cd, citn, citp⟩ (some sd) hget1)
              have hAfr : ∀ b, b ≠ selA → b ≠ a →
                  heapGet (heapSet (heapSet h selA ⟨some cd, seln, selp⟩) a
                    ⟨some sd, citn, citp⟩) b = heapGet h b := by
                intro b hb1 hb2
                rw [heapGet_set_ne _ _ _ _ hb2, heapGet_set_ne _ _ _ _ hb1]
              have hAch : isChainB
                  (heapSet (heapSet h selA ⟨some cd, seln, selp⟩) a ⟨some sd, citn, citp⟩)
                  citn cs' = true := by
                rw [← isChainB_congr h _ hAsh]
                exact hch'
              have hAdatas : datasOf
                  (heapSet (heapSet h selA ⟨some cd, seln, selp⟩) a ⟨some sd, citn, citp⟩) cs'
                  = datasOf h cs' :=
                datasOf_congr _ _ cs' fun b hb =>
                  hAfr b (fun hh => hnot2 (hh ▸ hb)) (fun hh => hcn (hh ▸ hb))
              obtain ⟨h1, hrun, hsel1, hdat1, hfr1, hsh1⟩ :=
                sortInner_sim cs' _ selA (some cd) seln selp citn f hAsel hAch hnot2 hnd' hfn
              refine ⟨h1, ?_, ?_, ?_, ?_, sameShape_trans hAsh hsh1⟩
              · simp only [sortInner, hsel, hget, hswap, hAc, if_pos hsw]
                exact hrun
              · rw [hdatas, innerPass_cons_swap sd cd _ hsw]
                rw [hAdatas] at hsel1
                exact hsel1
              · have hc1 : heapGet h1 a = some ⟨some sd, citn, citp⟩ := by
                  rw [hfr1 a (fun hh => hnot1 hh.symm) hcn]
                  exact hAc
                rw [hdatas, innerPass_cons_swap sd cd _ hsw, datasOf_cons h1 a cs' _ hc1]
                rw [hAdatas] at hdat1
                rw [hdat1]
              · intro b hb1 hb2
                rw [hfr1 b hb1 (fun hh => hb2 (List.mem_cons_of_mem _ hh)),
                  hAfr b hb1 (fun hh => hb2 (hh ▸ List.mem_cons_self a cs'))]
            · obtain ⟨h1, hrun, hsel1, hdat1, hfr1, hsh1⟩ :=
                sortInner_sim cs' h selA (some sd) seln selp citn f hsel hch' hnot2 hnd' hfn
              refine ⟨h1, ?_, ?_, ?_, ?_, hsh1⟩
              · simp only [sortInner, hsel, hget, if_neg hsw]
                exact hrun
              · rw [hdatas, innerPass_cons_noswap sd cd _ (Bool.eq_false_iff.mpr hsw)]
                exact hsel1
              · have hc1 : heapGet h1 a = some ⟨some cd, citn, citp⟩ := by
                  rw [hfr1 a (fun hh => hnot1 hh.symm) hcn]
                  exact hget
                rw [hdatas, innerPass_cons_noswap sd cd _ (Bool.eq_false_iff.mpr hsw),
                  datasOf_cons h1 a cs' _ hc1, hdat1]
              · intro b hb1 hb2
                exact hfr1 b hb1 (fun hh => hb2 (List.mem_cons_of_mem _ hh))

theorem sortOuter_sim : ∀ (as : List Nat) (h : Heap) (a : Nat) (innerFuel outerFuel : Nat),
    isChainB h (some a) as = true → as.Nodup →
    as.length ≤ innerFuel → as.length ≤ outerFuel →
    ∃ h1, sortOuter h innerFuel outerFuel a = some h1
      ∧ datasOf h1 as = exchangeSortF outerFuel (datasOf h as)
      ∧ (∀ b, b ∉ as → heapGet h1 b = heapGet h b)
      ∧ SameShape h h1
  | [], h, a, iF, oF => by
    intro hch _ _ _
    simp [isChainB] at hch
  | [c], h, a, iF, oF => by
    intro hch hnd hiF hoF
    obtain ⟨rfl, cit, hget, hch'⟩ := isChainB_cons_elim h a c [] hch
    have hnil : cit.nextItem = none := isChainB_nil_elim h cit.nextItem hch'
    cases oF with
    | zero => exact absurd hoF (by simp)
    | succ o =>
      refine ⟨h, ?_, ?_, fun b _ => rfl, sameShape_refl h⟩
      · simp only [sortOuter, hget, hnil]
      · rw [datasOf_cons h a [] cit hget, show datasOf h ([] : List Nat) = [] from rfl,
          exchangeSortF_single]
  | c :: c2 :: rest, h, a, iF, oF => by
    intro hch hnd hiF hoF
    obtain ⟨rfl, sel, hget, hch'⟩ := isChainB_cons_elim h a c (c2 :: rest) hch
    obtain ⟨seld, seln, selp⟩ := sel
    simp only at hch'
    cases seln with
    | none => simp [isChainB] at hch'
    | some n2 =>
      obtain ⟨rfl, cit2, hget2, -⟩ := isChainB_cons_elim h n2 c2 rest hch'
      cases oF with
      | zero => exact absurd hoF (by simp)
      | succ o =>
        have hlen2 : (n2 :: rest).length ≤ iF := le_trans (by simp) hiF
        have hleno : (n2 :: rest).length ≤ o := by
          simpa using Nat.le_of_succ_le_succ (by simpa using hoF)
        have hnotin : a ∉ n2 :: rest := (List.nodup_cons.mp hnd).1
        have hnd' : (n2 :: rest).Nodup := (List.nodup_cons.mp hnd).2
        obtain ⟨h1, hrun1, hsel1, hdat1, hfr1, hsh1⟩ :=
          sortInner_sim (n2 :: rest) h a seld (some n2) selp (some n2) iF hget hch'
            hnotin hnd' hlen2
        have hch1 : isChainB h1 (some n2) (n2 :: rest) = true := by
          rw [← isChainB_congr h h1 hsh1]
          exact hch'
        obtain ⟨h2, hrun2, hdat2, hfr2, hsh2⟩ :=
          sortOuter_sim (n2 :: rest) h1 n2 iF o hch1 hnd' hlen2 hleno
        refine ⟨h2, ?_, ?_, ?_, sameShape_trans hsh1 hsh2⟩
        · simp only [sortOuter, hget, hrun1, hsel1]
          exact hrun2
        · have hh2c : heapGet h2 a
              = some ⟨(innerPass seld (datasOf h (n2 :: rest))).1, some n2, selp⟩ := by
            rw [hfr2 a hnotin]
            exact hsel1
          have hds : datasOf h (n2 :: rest) = cit2.data :: datasOf h rest :=
            datasOf_cons h n2 rest cit2 hget2
          rw [datasOf_cons h2 a _ _ hh2c,
            datasOf_cons h a _ ⟨seld, some n2, selp⟩ hget, hdat2, hdat1, hds,
            exchangeSortF_cons]
        · intro b hb
          have hb1 : b ≠ a := fun hh => hb (hh ▸ List.mem_cons_self _ _)
          have hb2 : b ∉ n2 :: rest := fun hh => hb (List.mem_cons_of_mem _ hh)
          rw [hfr2 b hb2, hfr1 b hb1 hb2]

theorem sortInner_id : ∀ (cs : List Nat) (h : Heap) (selA : Nat) (seld : Option String)
    (seln selp : Option Nat) (co : Option Nat) (fuel : Nat),
    heapGet h selA = some ⟨seld, seln, selp⟩ → isChainB h co cs = true →
    cs.length ≤ fuel → (∀ d ∈ datasOf h cs, codeLe seld d = true) →
    sortInner h selA fuel co = some h
  | [], h, selA, seld, seln, selp, co, fuel => by
    intro _ hch _ _
    have hco := isChainB_nil_elim h co hch
    subst hco
    exact sortInner_none h selA fuel
  | c :: cs', h, selA, seld, seln, selp, co, fuel => by
    intro hsel hch hfuel hbound
    cases co with
    | none => simp [isChainB] at hch
    | some a =>
      obtain ⟨rfl, cit, hget, hch'⟩ := isChainB_cons_elim h a c cs' hch
      cases fuel with
      | zero => exact absurd hfuel (by simp)
      | succ f =>
        have hfn : cs'.length ≤ f := by
          simpa using Nat.le_of_succ_le_succ (by simpa using hfuel)
        have hdatas : datasOf h (a :: cs') = cit.data :: datasOf h cs' :=
          datasOf_cons h a cs' cit hget
        have hhead : codeLe seld cit.data = true := by
          apply hbound
          rw [hdatas]
          exact List.mem_cons_self _ _
        have htail : ∀ d ∈ datasOf h cs', codeLe seld d = true := by
          intro d hd
          apply hbound
          rw [hdatas]
          exact List.mem_cons_of_mem _ hd
        cases seld with
        | none => simp only [sortInner, hsel]
        | some sd =>
          cases hcd : cit.data with
          | none => rw [hcd] at hhead; simp [codeLe] at hhead
          | some cd =>
            rw [hcd] at hhead
            have hsw : swapCond sd cd = false := by
              rw [swapCond_eq, hhead]
              rfl
            simp only [sortInner, hsel, hget, hcd, hsw, Bool.false_eq_true, if_false]
            exact sortInner_id cs' h selA (some sd) seln selp cit.nextItem f hsel hch' hfn htail

theorem sortOuter_id : ∀ (as : List Nat) (h : Heap) (a : Nat) (innerFuel outerFuel : Nat),
    isChainB h (some a) as = true →
    as.length ≤ innerFuel → as.length ≤ outerFuel →
    (datasOf h as).Pairwise (fun x y => codeLe x y = true) →
    sortOuter h innerFuel outerFuel a = some h
  | [], h, a, iF, oF => by
    intro hch _ _ _
    simp [isChainB] at hch
  | [c], h, a, iF, oF => by
    intro hch _ hoF _
    obtain ⟨rfl, cit, hget, hch'⟩ := isChainB_cons_elim h a c [] hch
    have hnil : cit.nextItem = none := isChainB_nil_elim h cit.nextItem hch'
    cases oF with
    | zero => exact absurd hoF (by simp)
    | succ o => simp only [sortOuter, hget, hnil]
  | c :: c2 :: rest, h, a, iF, oF => by
    intro hch hiF hoF hsorted
    obtain ⟨rfl, sel, hget, hch'⟩ := isChainB_cons_elim h a c (c2 :: rest) hch
    obtain ⟨seld, seln, selp⟩ := sel
    simp only at hch'
    cases seln with
    | none => simp [isChainB] at hch'
    | some n2 =>
      cases oF with
      | zero => exact absurd hoF (by simp)
      | succ o =>
        have hlen2 : (c2 :: rest).length ≤ iF := le_trans (by simp) hiF
        have hleno : (c2 :: rest).length ≤ o := by
          simpa using Nat.le_of_succ_le_succ (by simpa using hoF)
        rw [datasOf_cons h a _ ⟨seld, some n2, selp⟩ hget] at hsorted
        obtain ⟨hhead, htail⟩ := List.pairwise_cons.mp hsorted
        have hinner : sortInner h a iF (some n2) = some h :=
          sortInner_id (c2 :: rest) h a seld (some n2) selp (some n2) iF hget hch'
            hlen2 hhead
        simp only [sortOuter, hget, hinner]
        exact sortOuter_id (c2 :: rest) h n2 iF o hch' hlen2 hleno htail

/-! ### Traversal lemmas for `getFirst` and `print` -/

theorem isBackChain_cons_elim (h : Heap) (a c : Nat) (cs : List Nat)
    (hch : isBackChain h (some a) (c :: cs) = true) :
    a = c ∧ ∃ cit, heapGet h a = some cit ∧ isBackChain h cit.previousItem cs = true := by
  simp only [isBackChain, Bool.and_eq_true, beq_iff_eq] at hch
  obtain ⟨hac, hm⟩ := hch
  refine ⟨hac, ?_⟩
  cases hg : heapGet h a with
  | none => rw [hg] at hm; simp at hm
  | some cit => rw [hg] at hm; exact ⟨cit, rfl, hm⟩

theorem isBackChain_nil_elim (h : Heap) (o : Option Nat) (hch : isBackChain h o [] = true) :
    o = none := by
  cases o with
  | none => rfl
  | some a => simp [isBackChain] at hch

theorem getFirstLoop_back : ∀ (bs : List Nat) (h : Heap) (x hd : Nat) (fuel : Nat),
    isBackChain h (some x) bs = true → bs.getLast? = some hd → bs.length ≤ fuel →
    getFirstLoop h fuel x = some hd
  | [], h, x, hd, fuel => by
    intro hch _ _
    simp [isBackChain] at hch
  | [b], h, x, hd, fuel => by
    intro hch hlast hfuel
    obtain ⟨rfl, cit, hget, hch'⟩ := isBackChain_cons_elim h x b [] hch
    have hnil : cit.previousItem = none := isBackChain_nil_elim h cit.previousItem hch'
    cases fuel with
    | zero => exact absurd hfuel (by simp)
    | succ fl =>
      simp only [List.getLast?_singleton, Option.some.injEq] at hlast
      simp only [getFirstLoop, hget, hnil]
      rw [hlast]
  | b :: b2 :: rest, h, x, hd, fuel => by
    intro hch hlast hfuel
    obtain ⟨rfl, cit, hget, hch'⟩ := isBackChain_cons_elim h x b (b2 :: rest) hch
    cases hp : cit.previousItem with
    | none => rw [hp] at hch'; simp [isBackChain] at hch'
    | some p =>
      rw [hp] at hch'
      obtain ⟨rfl, -, -, -⟩ := isBackChain_cons_elim h p b2 rest hch'
      cases fuel with
      | zero => exact absurd hfuel (by simp)
      | succ fl =>
        have hflen : (p :: rest).length ≤ fl := by
          simpa using Nat.le_of_succ_le_succ (by simpa using hfuel)
        have hlast2 : (p :: rest).getLast? = some hd := by
          rw [← hlast]
          exact (List.getLast?_cons_cons ..).symm
        simp only [getFirstLoop, hget, hp]
        exact getFirstLoop_back (p :: rest) h p hd fl hch' hlast2 hflen

theorem printLoop_none (h : Heap) (fuel : Nat) : printLoop h fuel none = some "" := by
  cases fuel <;> rfl

theorem printLoop_chain : ∀ (as : List Nat) (h : Heap) (a : Nat) (fuel : Nat),
    isChainB h (some a) as = true → as.length ≤ fuel →
    printLoop h fuel (some a)
      = some ((datasOf h as).foldr (fun dd acc => renderItem dd ++ acc) "")
  | [], h, a, fuel => by
    intro hch _
    simp [isChainB] at hch
  | a0 :: rest, h, a, fuel => by
    intro hch hfuel
    obtain ⟨rfl, cit, hget, hch'⟩ := isChainB_cons_elim h a a0 rest hch
    cases fuel with
    | zero => exact absurd hfuel (by simp)
    | succ fl =>
      have hflen : rest.length ≤ fl := by
        simpa using Nat.le_of_succ_le_succ (by simpa using hfuel)
      rw [datasOf_cons h a rest cit hget]
      cases rest with
      | nil =>
        have hnil : cit.nextItem = none := isChainB_nil_elim h cit.nextItem hch'
        simp only [printLoop, hget, hnil, printLoop_none, Option.map_some', List.foldr]
      | cons r rest2 =>
        cases hn : cit.nextItem with
        | none => rw [hn] at hch'; simp [isChainB] at hch'
        | some r0 =>
          rw [hn] at hch'
          obtain ⟨rfl, -, -, -⟩ := isChainB_cons_elim h r0 r rest2 hch'
          simp only [printLoop, hget, hn,
            printLoop_chain (r0 :: rest2) h r0 fl hch' hflen, Option.map_some', List.foldr]

/-! ### Claim theorems -/

/-- C2 (code_bug evidence): with a NULL argument, `LinkedListRemove`,
`LinkedListGetFirst`, `LinkedListSize`, `LinkedListCreateAfter` and
`LinkedListSwapData` (one NULL argument) all dereference the NULL pointer —
`LinkedListRemove` reads `temp->data` before its NULL check,
`LinkedListGetFirst` has no NULL check at all — instead of returning the
error sentinel their own documentation promises; only `LinkedListSort` and
`LinkedListPrint` return `STANDARD_ERROR` without mutating anything. -/
theorem claim_C2_null_handling (h : Heap) (fuel : Nat) (x : Nat) :
    LinkedListRemove h none = none
  ∧ LinkedListGetFirst h none fuel = none
  ∧ LinkedListSize h none fuel = none
  ∧ (∀ junkNext junkPrev d,
      LinkedListCreateAfter h none (some x) junkNext junkPrev d = none)
  ∧ LinkedListSwapData h none (some x) = none
  ∧ LinkedListSwapData h (some x) none = none
  ∧ LinkedListSort h none fuel = some (CStatus.STANDARD_ERROR, h)
  ∧ LinkedListPrint h none fuel = some (CStatus.STANDARD_ERROR, "") := by
  refine ⟨rfl, rfl, rfl, fun _ _ _ => rfl, rfl, ?_, rfl, rfl⟩
  cases hx : heapGet h x <;> simp [LinkedListSwapData, hx]

/-- C4 (code_bug evidence): on allocation failure `LinkedListNew` crashes
(it writes `temp->data` through the NULL result before its NULL check)
instead of returning the NULL sentinel, and on success the fresh node holds
exactly the given payload but keeps whatever junk the allocator left in its
`nextItem`/`previousItem` fields — they are not initialised to the absent
link; the last conjunct exhibits a run where the "unlinked" node comes back
with links `7` and `8`. -/
theorem claim_C4_new_behaviour (h : Heap) (d : Option String)
    (junkNext junkPrev : Option Nat) (f : Nat) :
    LinkedListNew h none junkNext junkPrev d = none
  ∧ LinkedListNew h (some f) junkNext junkPrev d
      = some (some f, heapSet h f ⟨d, junkNext, junkPrev⟩)
  ∧ heapGet (heapSet h f ⟨d, junkNext, junkPrev⟩) f = some ⟨d, junkNext, junkPrev⟩
  ∧ ((LinkedListNew [] (some 1) (some 7) (some 8) (some "dog")).map
      fun r => heapGet r.2 1) = some (some ⟨some "dog", some 7, some 8⟩) :=
  ⟨rfl, rfl, heapGet_set_self h f _, rfl⟩

/-- C3: `LinkedListSwapData` returns `STANDARD_ERROR` exactly when both
arguments are NULL; with exactly one NULL argument it does not return the
error status but goes into the exchange and dereferences the NULL pointer;
with two valid distinct nodes it exchanges the two payload references
(whether or not the payloads themselves are NULL), returns `SUCCESS`, and
touches no other node and no link. -/
theorem claim_C3_swapData (h : Heap) (a b : Nat) (ia ib : ListItem)
    (ha : heapGet h a = some ia) (hb : heapGet h b = some ib) (hab : a ≠ b) :
    LinkedListSwapData h none none = some (CStatus.STANDARD_ERROR, h)
  ∧ LinkedListSwapData h none (some b) = none
  ∧ LinkedListSwapData h (some a) none = none
  ∧ ∃ h1, LinkedListSwapData h (some a) (some b) = some (CStatus.SUCCESS, h1)
      ∧ heapGet h1 a = some ⟨ib.data, ia.nextItem, ia.previousItem⟩
      ∧ heapGet h1 b = some ⟨ia.data, ib.nextItem, ib.previousItem⟩
      ∧ ∀ c, c ≠ a → c ≠ b → heapGet h1 c = heapGet h c := by
  refine ⟨rfl, rfl, ?_, ?_⟩
  · simp [LinkedListSwapData, ha]
  · refine ⟨_, swapData_ok h a b ia ib ha hb hab, ?_, heapGet_set_self _ _ _, ?_⟩
    · rw [heapGet_set_ne _ _ _ _ hab, heapGet_set_self]
    · intro c hc1 hc2
      rw [heapGet_set_ne _ _ _ _ hc2, heapGet_set_ne _ _ _ _ hc1]

/-- The two-node chain used to instantiate the `swapPayload` contract:
node 1 has a NULL payload, node 2 holds `cat`. -/
def swapWitnessHeap : Heap :=
  [(1, ⟨none, some 2, none⟩), (2, ⟨some "cat", none, some 1⟩)]

/-- Witness for C3 at a concrete chain whose first payload is NULL. -/
theorem claim_C3_swapData_witness :
    LinkedListSwapData swapWitnessHeap none none
        = some (CStatus.STANDARD_ERROR, swapWitnessHeap)
  ∧ LinkedListSwapData swapWitnessHeap none (some 2) = none
  ∧ LinkedListSwapData swapWitnessHeap (some 1) none = none
  ∧ ∃ h1, LinkedListSwapData swapWitnessHeap (some 1) (some 2)
        = some (CStatus.SUCCESS, h1)
      ∧ heapGet h1 1 = some ⟨some "cat", some 2, none⟩
      ∧ heapGet h1 2 = some ⟨none, none, some 1⟩
      ∧ ∀ c, c ≠ 1 → c ≠ 2 → heapGet h1 c = heapGet swapWitnessHeap c :=
  claim_C3_swapData swapWitnessHeap 1 2 ⟨none, some 2, none⟩ ⟨some "cat", none, some 1⟩
    rfl rfl (by decide)

/-- C5: when `insertAfter(A, payload)` succeeds returning the fresh node `B`
(at address `f`), afterwards `A.next == B` and `B.prev == A`; if `A` had a
next node `C` before the insertion then `B.next == C` and `C.prev == B`, and
if `A` was the tail then `B` is the new tail with no next; `B` holds the
given payload, and no other node is touched. -/
theorem claim_C5_createAfter (h : Heap) (ia f : Nat) (iit : ListItem) (d : Option String)
    (junkNext junkPrev : Option Nat) (hi : heapGet h ia = some iit)
    (hfresh : heapGet h f = none) (hf : f ≠ ia) :
    (iit.nextItem = none →
      ∃ h1, LinkedListCreateAfter h (some ia) (some f) junkNext junkPrev d
          = some (some f, h1)
        ∧ heapGet h1 f = some ⟨d, none, some ia⟩
        ∧ heapGet h1 ia = some ⟨iit.data, some f, iit.previousItem⟩
        ∧ ∀ b, b ≠ f → b ≠ ia → heapGet h1 b = heapGet h b)
  ∧ (∀ c cit, iit.nextItem = some c → heapGet h c = some cit → c ≠ ia → c ≠ f →
      ∃ h1, LinkedListCreateAfter h (some ia) (some f) junkNext junkPrev d
          = some (some f, h1)
        ∧ heapGet h1 f = some ⟨d, some c, some ia⟩
        ∧ heapGet h1 ia = some ⟨iit.data, some f, iit.previousItem⟩
        ∧ heapGet h1 c = some ⟨cit.data, cit.nextItem, some f⟩
        ∧ ∀ b, b ≠ f → b ≠ ia → b ≠ c → heapGet h1 b = heapGet h b) := by
  have hia : ia ≠ f := fun hh => hf hh.symm
  have e1 : heapGet (heapSet h f ⟨d, junkNext, junkPrev⟩) ia = some iit := by
    rw [heapGet_set_ne _ _ _ _ hia]
    exact hi
  constructor
  · intro hnext
    have eA : heapGet (heapSet (heapSet (heapSet h f ⟨d, junkNext, junkPrev⟩) f
        ⟨d, none, junkPrev⟩) f ⟨d, none, some ia⟩) ia = some iit := by
      rw [heapGet_set_ne _ _ _ _ hia, heapGet_set_ne _ _ _ _ hia,
        heapGet_set_ne _ _ _ _ hia]
      exact hi
    refine ⟨heapSet (heapSet (heapSet (heapSet h f ⟨d, junkNext, junkPrev⟩) f
        ⟨d, none, junkPrev⟩) f ⟨d, none, some ia⟩) ia
        ⟨iit.data, some f, iit.previousItem⟩, ?_, ?_, ?_, ?_⟩
    · simp only [LinkedListCreateAfter, LinkedListNew, e1, hnext, heapWriteNext,
        heapWritePrev, heapGet_set_self, eA]
    · rw [heapGet_set_ne _ _ _ _ hf, heapGet_set_self]
    · rw [heapGet_set_self]
    · intro b hbf hbia
      rw [heapGet_set_ne _ _ _ _ hbia, heapGet_set_ne _ _ _ _ hbf,
        heapGet_set_ne _ _ _ _ hbf, heapGet_set_ne _ _ _ _ hbf]
  · intro c cit hnext hc hcia hcf
    have hiac : ia ≠ c := fun hh => hcia hh.symm
    have e2 : heapGet (heapSet (heapSet h f ⟨d, junkNext, junkPrev⟩) f
        ⟨d, junkNext, some ia⟩) ia = some iit := by
      rw [heapGet_set_ne _ _ _ _ hia, heapGet_set_ne _ _ _ _ hia]
      exact hi
    have e3 : heapGet (heapSet (heapSet (heapSet h f ⟨d, junkNext, junkPrev⟩) f
        ⟨d, junkNext, some ia⟩) f ⟨d, some c, some ia⟩) ia = some iit := by
      rw [heapGet_set_ne _ _ _ _ hia, heapGet_set_ne _ _ _ _ hia,
        heapGet_set_ne _ _ _ _ hia]
      exact hi
    have e4 : heapGet (heapSet (heapSet (heapSet h f ⟨d, junkNext, junkPrev⟩) f
        ⟨d, junkNext, some ia⟩) f ⟨d, some c, some ia⟩) c = some cit := by
      rw [heapGet_set_ne _ _ _ _ hcf, heapGet_set_ne _ _ _ _ hcf,
        heapGet_set_ne _ _ _ _ hcf]
      exact hc
    have e5 : heapGet (heapSet (heapSet (heapSet (heapSet h f ⟨d, junkNext, junkPrev⟩) f
        ⟨d, junkNext, some ia⟩) f ⟨d, some c, some ia⟩) c
        ⟨cit.data, cit.nextItem, some f⟩) ia = some iit := by
      rw [heapGet_set_ne _ _ _ _ hiac]
      exact e3
    refine ⟨heapSet (heapSet (heapSet (heapSet (heapSet h f ⟨d, junkNext, junkPrev⟩) f
        ⟨d, junkNext, some ia⟩) f ⟨d, some c, some ia⟩) c
        ⟨cit.data, cit.nextItem, some f⟩) ia ⟨iit.data, some f, iit.previousItem⟩,
        ?_, ?_, ?_, ?_, ?_⟩
    · simp only [LinkedListCreateAfter, LinkedListNew, e1, hnext, heapWritePrev,
        heapWriteNext, heapGet_set_self, e2, e3, e4, e5]
    · rw [heapGet_set_ne _ _ _ _ hf, heapGet_set_ne _ _ _ _ (fun hh => hcf hh.symm),
        heapGet_set_self]
    · rw [heapGet_set_self]
    · rw [heapGet_set_ne _ _ _ _ hcia, heapGet_set_self]
    · intro b hbf hbia hbc
      rw [heapGet_set_ne _ _ _ _ hbia, heapGet_set_ne _ _ _ _ hbc,
        heapGet_set_ne _ _ _ _ hbf, heapGet_set_ne _ _ _ _ hbf,
        heapGet_set_ne _ _ _ _ hbf]

/-- The two-node chain `dog, cat` used to instantiate the insertion
contract. -/
def c5Heap : Heap :=
  [(1, ⟨some "dog", some 2, none⟩), (2, ⟨some "cat", none, some 1⟩)]

/-- Witness for C5: inserting `duck` after the tail node 2 and after the
interior node 1 of the chain `dog, cat` (fresh address 3, junk links 9). -/
theorem claim_C5_createAfter_witness :
    (∃ h1, LinkedListCreateAfter c5Heap (some 2) (some 3) (some 9) (some 9) (some "duck")
        = some (some 3, h1)
      ∧ heapGet h1 3 = some ⟨some "duck", none, some 2⟩
      ∧ heapGet h1 2 = some ⟨some "cat", some 3, some 1⟩
      ∧ ∀ b, b ≠ 3 → b ≠ 2 → heapGet h1 b = heapGet c5Heap b)
  ∧ (∃ h1, LinkedListCreateAfter c5Heap (some 1) (some 3) (some 9) (some 9) (some "duck")
        = some (some 3, h1)
      ∧ heapGet h1 3 = some ⟨some "duck", some 2, some 1⟩
      ∧ heapGet h1 1 = some ⟨some "dog", some 3, none⟩
      ∧ heapGet h1 2 = some ⟨some "cat", none, some 3⟩
      ∧ ∀ b, b ≠ 3 → b ≠ 1 → b ≠ 2 → heapGet h1 b = heapGet c5Heap b) :=
  ⟨(claim_C5_createAfter c5Heap 2 3 ⟨some "cat", none, some 1⟩ (some "duck")
      (some 9) (some 9) rfl rfl (by decide)).1 rfl,
   (claim_C5_createAfter c5Heap 1 3 ⟨some "dog", some 2, none⟩ (some "duck")
      (some 9) (some 9) rfl rfl (by decide)).2 2 ⟨some "cat", none, some 1⟩
      rfl rfl (by decide) (by decide)⟩

/-- C6: `remove(node)` returns the payload the node held; for an interior
node with neighbours `P` and `N` it splices them together (`P.next == N`,
`N.prev == P`); for a head, tail, or isolated node the surviving
neighbour's link toward the removed node becomes absent; the removed node's
storage is freed and no other node is touched. -/
theorem claim_C6_remove (h : Heap) (a : Nat) (it : ListItem)
    (ha : heapGet h a = some it) :
    (∀ p n pit nit, it.previousItem = some p → it.nextItem = some n →
      heapGet h p = some pit → heapGet h n = some nit → a ≠ p → a ≠ n → p ≠ n →
      ∃ h1, LinkedListRemove h (some a) = some (it.data, h1)
        ∧ heapGet h1 a = none
        ∧ heapGet h1 p = some ⟨pit.data, some n, pit.previousItem⟩
        ∧ heapGet h1 n = some ⟨nit.data, nit.nextItem, some p⟩
        ∧ ∀ b, b ≠ a → b ≠ p → b ≠ n → heapGet h1 b = heapGet h b)
  ∧ (∀ n nit, it.previousItem = none → it.nextItem = some n →
      heapGet h n = some nit → a ≠ n →
      ∃ h1, LinkedListRemove h (some a) = some (it.data, h1)
        ∧ heapGet h1 a = none
        ∧ heapGet h1 n = some ⟨nit.data, nit.nextItem, none⟩
        ∧ ∀ b, b ≠ a → b ≠ n → heapGet h1 b = heapGet h b)
  ∧ (∀ p pit, it.previousItem = some p → it.nextItem = none →
      heapGet h p = some pit → a ≠ p →
      ∃ h1, LinkedListRemove h (some a) = some (it.data, h1)
        ∧ heapGet h1 a = none
        ∧ heapGet h1 p = some ⟨pit.data, none, pit.previousItem⟩
        ∧ ∀ b, b ≠ a → b ≠ p → heapGet h1 b = heapGet h b)
  ∧ (it.previousItem = none → it.nextItem = none →
      ∃ h1, LinkedListRemove h (some a) = some (it.data, h1)
        ∧ heapGet h1 a = none
        ∧ ∀ b, b ≠ a → heapGet h1 b = heapGet h b) := by
  refine ⟨?_, ?_, ?_, ?_⟩
  · intro p n pit nit hprev hnext hgp hgn hap han hpn
    have eI : heapGet (heapSet h n ⟨nit.data, nit.nextItem, some p⟩) a = some it := by
      rw [heapGet_set_ne _ _ _ _ han]
      exact ha
    have eII : heapGet (heapSet h n ⟨nit.data, nit.nextItem, some p⟩) p = some pit := by
      rw [heapGet_set_ne _ _ _ _ hpn]
      exact hgp
    refine ⟨heapDel (heapSet (heapSet h n ⟨nit.data, nit.nextItem, some p⟩) p
        ⟨pit.data, some n, pit.previousItem⟩) a, ?_, heapGet_del_self _ _, ?_, ?_, ?_⟩
    · simp only [LinkedListRemove, ha, hprev, hnext, heapWritePrev, heapWriteNext,
        hgn, eI, eII]
    · rw [heapGet_del_ne _ _ _ (fun hh => hap hh.symm), heapGet_set_self]
    · rw [heapGet_del_ne _ _ _ (fun hh => han hh.symm),
        heapGet_set_ne _ _ _ _ (fun hh => hpn hh.symm), heapGet_set_self]
    · intro b hba hbp hbn
      rw [heapGet_del_ne _ _ _ hba, heapGet_set_ne _ _ _ _ hbp,
        heapGet_set_ne _ _ _ _ hbn]
  · intro n nit hprev hnext hgn han
    refine ⟨heapDel (heapSet h n ⟨nit.data, nit.nextItem, none⟩) a, ?_,
        heapGet_del_self _ _, ?_, ?_⟩
    · simp only [LinkedListRemove, ha, hprev, hnext, heapWritePrev, hgn]
    · rw [heapGet_del_ne _ _ _ (fun hh => han hh.symm), heapGet_set_self]
    · intro b hba hbn
      rw [heapGet_del_ne _ _ _ hba, heapGet_set_ne _ _ _ _ hbn]
  · intro p pit hprev hnext hgp hap
    refine ⟨heapDel (heapSet h p ⟨pit.data, none, pit.previousItem⟩) a, ?_,
        heapGet_del_self _ _, ?_, ?_⟩
    · simp only [LinkedListRemove, ha, hprev, hnext, heapWriteNext, hgp]
    · rw [heapGet_del_ne _ _ _ (fun hh => hap hh.symm), heapGet_set_self]
    · intro b hba hbp
      rw [heapGet_del_ne _ _ _ hba, heapGet_set_ne _ _ _ _ hbp]
  · intro hprev hnext
    refine ⟨heapDel h a, ?_, heapGet_del_self _ _, ?_⟩
    · simp only [LinkedListRemove, ha, hprev, hnext]
    · intro b hba
      rw [heapGet_del_ne _ _ _ hba]

/-- The three-node chain `dog, cat, duck` used to instantiate the removal
contract. -/
def c6Heap : Heap :=
  [(1, ⟨some "dog", some 2, none⟩), (2, ⟨some "cat", some 3, some 1⟩),
   (3, ⟨some "duck", none, some 2⟩)]

/-- A single isolated node. -/
def c6IsoHeap : Heap := [(7, ⟨some "emu", none, none⟩)]

/-- Witness for C6: removing the interior node 2, the head node 1 and the
tail node 3 of the chain `dog, cat, duck`, and removing an isolated node. -/
theorem claim_C6_remove_witness :
    (∃ h1, LinkedListRemove c6Heap (some 2) = some (some "cat", h1)
      ∧ heapGet h1 2 = none
      ∧ heapGet h1 1 = some ⟨some "dog", some 3, none⟩
      ∧ heapGet h1 3 = some ⟨some "duck", none, some 1⟩
      ∧ ∀ b, b ≠ 2 → b ≠ 1 → b ≠ 3 → heapGet h1 b = heapGet c6Heap b)
  ∧ (∃ h1, LinkedListRemove c6Heap (some 1) = some (some "dog", h1)
      ∧ heapGet h1 1 = none
      ∧ heapGet h1 2 = some ⟨some "cat", some 3, none⟩
      ∧ ∀ b, b ≠ 1 → b ≠ 2 → heapGet h1 b = heapGet c6Heap b)
  ∧ (∃ h1, LinkedListRemove c6Heap (some 3) = some (some "duck", h1)
      ∧ heapGet h1 3 = none
      ∧ heapGet h1 2 = some ⟨some "cat", none, some 1⟩
      ∧ ∀ b, b ≠ 3 → b ≠ 2 → heapGet h1 b = heapGet c6Heap b)
  ∧ (∃ h1, LinkedListRemove c6IsoHeap (some 7) = some (some "emu", h1)
      ∧ heapGet h1 7 = none
      ∧ ∀ b, b ≠ 7 → heapGet h1 b = heapGet c6IsoHeap b) :=
  ⟨(claim_C6_remove c6Heap 2 ⟨some "cat", some 3, some 1⟩ rfl).1 1 3
      ⟨some "dog", some 2, none⟩ ⟨some "duck", none, some 2⟩ rfl rfl rfl rfl
      (by decide) (by decide) (by decide),
   (claim_C6_remove c6Heap 1 ⟨some "dog", some 2, none⟩ rfl).2.1 2
      ⟨some "cat", some 3, some 1⟩ rfl rfl rfl (by decide),
   (claim_C6_remove c6Heap 3 ⟨some "duck", none, some 2⟩ rfl).2.2.1 2
      ⟨some "cat", some 3, some 1⟩ rfl rfl rfl (by decide),
   (claim_C6_remove c6IsoHeap 7 ⟨some "emu", none, none⟩ rfl).2.2.2 rfl rfl⟩

theorem isChainB_suffix : ∀ (pre : List Nat) (h : Heap) (o : Option Nat) (x : Nat)
    (post : List Nat), isChainB h o (pre ++ x :: post) = true →
    isChainB h (some x) (x :: post) = true
  | [], h, o, x, post => by
    intro hch
    cases o with
    | none => simp [isChainB] at hch
    | some a =>
      obtain ⟨rfl, -, -, -⟩ := isChainB_cons_elim h a x post hch
      exact hch
  | p :: pre', h, o, x, post => by
    intro hch
    cases o with
    | none => simp [isChainB] at hch
    | some a =>
      obtain ⟨rfl, cit, hget, hch'⟩ := isChainB_cons_elim h a p (pre' ++ x :: post) hch
      exact isChainB_suffix pre' h cit.nextItem x post hch'

/-- C1: sorting the example chain `dog, cat, duck, goat, NULL` from its head
returns `SUCCESS` and leaves the payload sequence, head to tail, equal to
`NULL, cat, dog, duck, goat`; in general, sorting any chain from any of its
nodes succeeds and leaves the payload sequence from that node onward a
permutation of the original payloads, sorted ascending first by length (an
absent payload counting as length 0) and then lexicographically among equal
lengths. -/
theorem claim_C1_sort :
    ((LinkedListSort exampleHeap (some 1) 6).map
        (fun r => (r.1, datasOf r.2 [1, 2, 3, 4, 5])))
      = some (CStatus.SUCCESS,
          [none, some "cat", some "dog", some "duck", some "goat"])
  ∧ ∀ (h : Heap) (x : Nat) (spine : List Nat) (fuel : Nat),
      isChainB h (some x) spine = true → spine.Nodup → spine.length ≤ fuel →
      ∃ h1, LinkedListSort h (some x) fuel = some (CStatus.SUCCESS, h1)
        ∧ (datasOf h1 spine).Pairwise (fun p q => keyLe p q = true)
        ∧ (datasOf h1 spine).Perm (datasOf h spine) := by
  constructor
  · decide
  · intro h x spine fuel hch hnd hfuel
    obtain ⟨h1, hrun, hdat, -, -⟩ := sortOuter_sim spine h x fuel fuel hch hnd hfuel hfuel
    have hdlen : (datasOf h spine).length ≤ fuel := by
      simpa [datasOf] using hfuel
    refine ⟨h1, ?_, ?_, ?_⟩
    · simp only [LinkedListSort, hrun]
    · rw [hdat]
      exact (exchangeSortF_sorted fuel _ hdlen).imp fun hxy => codeLe_imp_keyLe _ _ hxy
    · rw [hdat]
      exact exchangeSortF_perm fuel _

/-- Witness for C1 at the example chain. -/
theorem claim_C1_sort_witness :
    ∃ h1, LinkedListSort exampleHeap (some 1) 6 = some (CStatus.SUCCESS, h1)
      ∧ (datasOf h1 [1, 2, 3, 4, 5]).Pairwise (fun p q => keyLe p q = true)
      ∧ (datasOf h1 [1, 2, 3, 4, 5]).Perm (datasOf exampleHeap [1, 2, 3, 4, 5]) :=
  claim_C1_sort.2 exampleHeap 1 [1, 2, 3, 4, 5] 6 (by decide) (by decide) (by decide)

/-- C7: sorting never relinks, creates or frees a node: every node present
before is present after with the same `nextItem` and `previousItem` links
(only its payload may move), every absent address stays absent, the
multiset of payloads across the sorted part of the chain is preserved, and
every node outside that part is completely untouched. -/
theorem claim_C7_sort_frame (h : Heap) (x : Nat) (spine : List Nat) (fuel : Nat)
    (hch : isChainB h (some x) spine = true) (hnd : spine.Nodup)
    (hfuel : spine.length ≤ fuel) :
    ∃ h1, LinkedListSort h (some x) fuel = some (CStatus.SUCCESS, h1)
      ∧ (∀ b it, heapGet h b = some it →
          ∃ d, heapGet h1 b = some ⟨d, it.nextItem, it.previousItem⟩)
      ∧ (∀ b, heapGet h b = none → heapGet h1 b = none)
      ∧ (datasOf h1 spine).Perm (datasOf h spine)
      ∧ (∀ b, b ∉ spine → heapGet h1 b = heapGet h b) := by
  obtain ⟨h1, hrun, hdat, hfr, hsh⟩ := sortOuter_sim spine h x fuel fuel hch hnd hfuel hfuel
  refine ⟨h1, by simp only [LinkedListSort, hrun], ?_, ?_, ?_, hfr⟩
  · intro b it hb
    exact sameShape_get_some hsh hb
  · intro b hb
    exact sameShape_get_none hsh hb
  · rw [hdat]
    exact exchangeSortF_perm fuel _

/-- Witness for C7 at the example chain. -/
theorem claim_C7_sort_frame_witness :
    ∃ h1, LinkedListSort exampleHeap (some 1) 6 = some (CStatus.SUCCESS, h1)
      ∧ (∀ b it, heapGet exampleHeap b = some it →
          ∃ d, heapGet h1 b = some ⟨d, it.nextItem, it.previousItem⟩)
      ∧ (∀ b, heapGet exampleHeap b = none → heapGet h1 b = none)
      ∧ (datasOf h1 [1, 2, 3, 4, 5]).Perm (datasOf exampleHeap [1, 2, 3, 4, 5])
      ∧ (∀ b, b ∉ [1, 2, 3, 4, 5] → heapGet h1 b = heapGet exampleHeap b) :=
  claim_C7_sort_frame exampleHeap 1 [1, 2, 3, 4, 5] 6 (by decide) (by decide) (by decide)

/-- C8 (counterexample): the two-node chain with payloads `"", NULL` is
already sorted for the specification's order — both payloads have length 0
and, with the absent payload treated as the empty string, identical content
(`keyLe` holds in both directions) — yet `LinkedListSort` swaps them: the
code's inner loop swaps whenever `cmp->data == NULL` and `select->data`
is present, even on this tie, so the payload sequence changes from
`["", NULL]` to `[NULL, ""]`. -/
theorem claim_C8_counterexample :
    keyLe (some "") none = true
  ∧ isChainB c8Heap (some 1) [1, 2] = true
  ∧ datasOf c8Heap [1, 2] = [some "", none]
  ∧ (datasOf c8Heap [1, 2]).Pairwise (fun p q => keyLe p q = true)
  ∧ ((LinkedListSort c8Heap (some 1) 3).map (fun r => (r.1, datasOf r.2 [1, 2])))
      = some (CStatus.SUCCESS, [none, some ""]) := by
  decide

/-- C8 (amended): sort is idempotent for the comparison order the code
actually implements, in which an absent payload sorts strictly before every
present payload, the empty string included: if the payload sequence from
the given node onward is sorted in that order (`codeLe`), the call returns
`SUCCESS` and leaves the heap — hence the payload sequence of the whole
chain — literally unchanged.  (The original claim, with ties between an
absent payload and the empty string allowed in either order, is refuted by
`claim_C8_counterexample`.) -/
theorem claim_C8_sort_idempotent (h : Heap) (x : Nat) (spine : List Nat) (fuel : Nat)
    (hch : isChainB h (some x) spine = true) (hfuel : spine.length ≤ fuel)
    (hsorted : (datasOf h spine).Pairwise (fun p q => codeLe p q = true)) :
    LinkedListSort h (some x) fuel = some (CStatus.SUCCESS, h) := by
  simp only [LinkedListSort, sortOuter_id spine h x fuel fuel hch hfuel hfuel hsorted]

/-- Witness for the amended C8 at the sorted example chain. -/
theorem claim_C8_sort_idempotent_witness :
    LinkedListSort sortedExampleHeap (some 1) 6
      = some (CStatus.SUCCESS, sortedExampleHeap) :=
  claim_C8_sort_idempotent sortedExampleHeap 1 [1, 2, 3, 4, 5] 6
    (by decide) (by decide) (by decide)

/-- C10: calling sort on a node `x` that is not the head only reorders the
payloads of `x` and the nodes after it: every node strictly before `x` in
the chain keeps exactly the node record (hence the payload) it held before
the call, so sort does not sort the whole chain unless given the head. -/
theorem claim_C10_sort_suffix_only (h : Heap) (hd x : Nat) (pre post : List Nat)
    (fuel : Nat) (hch : isChainB h (some hd) (pre ++ x :: post) = true)
    (hnd : (pre ++ x :: post).Nodup) (hfuel : (x :: post).length ≤ fuel) :
    ∃ h1, LinkedListSort h (some x) fuel = some (CStatus.SUCCESS, h1)
      ∧ (∀ b, b ∈ pre → heapGet h1 b = heapGet h b)
      ∧ datasOf h1 pre = datasOf h pre := by
  have hsuf : isChainB h (some x) (x :: post) = true :=
    isChainB_suffix pre h (some hd) x post hch
  have hparts := List.nodup_append.mp hnd
  have hnd2 : (x :: post).Nodup := hparts.2.1
  have hdisj : ∀ b ∈ pre, b ∉ x :: post := fun b hb hb2 => hparts.2.2 hb hb2
  obtain ⟨h1, hrun, -, hfr, -⟩ :=
    sortOuter_sim (x :: post) h x fuel fuel hsuf hnd2 hfuel hfuel
  refine ⟨h1, by simp only [LinkedListSort, hrun], ?_, ?_⟩
  · intro b hb
    exact hfr b (hdisj b hb)
  · exact datasOf_congr h h1 pre fun b hb => hfr b (hdisj b hb)

/-- Witness for C10: sorting the example chain from its second node leaves
node 1 (payload `dog`) untouched. -/
theorem claim_C10_sort_suffix_only_witness :
    ∃ h1, LinkedListSort exampleHeap (some 2) 4 = some (CStatus.SUCCESS, h1)
      ∧ (∀ b, b ∈ [1] → heapGet h1 b = heapGet exampleHeap b)
      ∧ datasOf h1 [1] = datasOf exampleHeap [1] :=
  claim_C10_sort_suffix_only exampleHeap 1 2 [1] [3, 4, 5] 4
    (by decide) (by decide) (by decide)

/-- C9: printing the chain `NULL, cat, dog, duck, goat` from any of its
nodes returns `SUCCESS` and writes exactly the line
`{-(null)--cat--dog--duck--goat-}` (followed by a newline) to stdout; in
general the output is the head-to-tail payload sequence rendered as a
brace-wrapped run of `-value-` segments with `-(null)-` standing in for
each absent payload. -/
theorem claim_C9_print :
    (∀ a, a ∈ [1, 2, 3, 4, 5] →
      LinkedListPrint sortedExampleHeap (some a) 6
        = some (CStatus.SUCCESS, "\x7b-(null)--cat--dog--duck--goat-\x7d\n"))
  ∧ ∀ (h : Heap) (x hd : Nat) (back full : List Nat) (fuel : Nat),
      isBackChain h (some x) back = true → back.getLast? = some hd →
      isChainB h (some hd) full = true →
      back.length ≤ fuel → full.length ≤ fuel →
      LinkedListPrint h (some x) fuel
        = some (CStatus.SUCCESS,
            "\x7b" ++ (datasOf h full).foldr (fun dd acc => renderItem dd ++ acc) ""
              ++ "\x7d\n") := by
  constructor
  · decide
  · intro h x hd back full fuel hback hlast hch hf1 hf2
    simp only [LinkedListPrint, getFirstLoop_back back h x hd fuel hback hlast hf1,
      printLoop_chain full h hd fuel hch hf2]

/-- Witness for C9: printing from the tail node of the sorted example
chain. -/
theorem claim_C9_print_witness :
    LinkedListPrint sortedExampleHeap (some 5) 6
      = some (CStatus.SUCCESS,
          "\x7b" ++ (datasOf sortedExampleHeap [1, 2, 3, 4, 5]).foldr
            (fun dd acc => renderItem dd ++ acc) "" ++ "\x7d\n") :=
  claim_C9_print.2 sortedExampleHeap 5 1 [5, 4, 3, 2, 1] [1, 2, 3, 4, 5] 6
    (by decide) (by decide) (by decide) (by decide) (by decide)

end CMPE13Lab5
